import Mathlib

/-!
# Verification of the BCoop hatchery → slaughter discrete-event simulation

Shallow embedding of `src/simulation/model.py` and `src/simulation/config.py`
(the `ChickSimulation` class, its `BarnPlace` data model, the barn placement
allocator `_place_truck`, the per-cart incubation/hatch pipeline
`_process_cart`, the grow-out cycle `_manage_farm_cycle`, the shipment
generator `_generate_shipments`, and construction-time behaviour).

Python dictionaries keyed by shipment id are embedded as association lists
(`List (String × Nat)`, first occurrence wins, as for a Python `dict` whose
keys are unique).  Simulated time (`env.now`, `cleaning_until`) is embedded
as `ℚ`: the simulation only ever compares times and adds fixed increments,
so rationals are a faithful model of the float arithmetic actually used.
-/

/-- Lookup in an occupant mapping: the value stored at the first entry whose
key equals `key` (Python `dict.get`/`[]`). -/
def occGet : List (String × Nat) → String → Option Nat
  | [], _ => none
  | (k, v) :: rest, key => if k = key then some v else occGet rest key

/-- Update an occupant mapping: replace the value at `key` if present,
otherwise append the new binding (Python `dict[key] = val`). -/
def occSet : List (String × Nat) → String → Nat → List (String × Nat)
  | [], key, val => [(key, val)]
  | (k, v) :: rest, key, val =>
      if k = key then (key, val) :: rest else (k, v) :: occSet rest key val

/-- Remove the binding at `key` (Python `dict.pop(key, None)`). -/
def occRemove : List (String × Nat) → String → List (String × Nat)
  | [], _ => []
  | (k, v) :: rest, key => if k = key then rest else (k, v) :: occRemove rest key

/-- Total quantity stored in an occupant mapping
(Python `sum(occupants.values())`). -/
def occSum (l : List (String × Nat)) : Nat :=
  (l.map Prod.snd).sum

/-- Embedding of the `BarnPlace` dataclass of `src/simulation/model.py`:
a barn place with a fixed capacity, a shipment-id → quantity occupant
mapping, a cached total `occupied`, and a cleaning deadline. -/
structure BarnPlace where
  farm_name : String
  place_id : String
  capacity : Nat
  occupants : List (String × Nat) := []
  occupied : Nat := 0
  cleaning_until : ℚ := 0
  deriving Repr, DecidableEq

/-- `BarnPlace.remaining_capacity`: `max(0, capacity - occupied)`;
`Nat` subtraction is exactly the `max(0, ·)` truncation of the source. -/
def BarnPlace.remaining_capacity (p : BarnPlace) : Nat :=
  p.capacity - p.occupied

/-- `BarnPlace.add`: `occupants[sid] = occupants.get(sid, 0) + amount` and
`occupied += amount`. -/
def BarnPlace.add (p : BarnPlace) (sid : String) (amount : Nat) : BarnPlace :=
  { p with
    occupants := occSet p.occupants sid ((occGet p.occupants sid).getD 0 + amount)
    occupied := p.occupied + amount }

/-- `BarnPlace.decrement`: clamp the removal to the shipment's current
quantity, drop the key when fully removed, truncate `occupied` at zero
(`max(0, occupied - removal)`), and return the updated place together with
the removed amount. -/
def BarnPlace.decrement (p : BarnPlace) (sid : String) (amount : Nat) :
    BarnPlace × Nat :=
  match occGet p.occupants sid with
  | none => (p, 0)
  | some current =>
      let removal := min current amount
      let occupants' :=
        if current ≤ removal then occRemove p.occupants sid
        else occSet p.occupants sid (current - removal)
      ({ p with occupants := occupants', occupied := p.occupied - removal },
       removal)

/-- `ChickSimulation._find_specific_place`: first place in the topology with
the requested id whose cleaning window has elapsed (`now >= cleaning_until`);
`none` when every candidate is missing or still cleaning. -/
def findSpecificPlace : List BarnPlace → ℚ → String → Option BarnPlace
  | [], _, _ => none
  | p :: rest, now, pid =>
      if p.place_id = pid ∧ p.cleaning_until ≤ now then some p
      else findSpecificPlace rest now pid

/-- One apply-phase step of `_place_truck`: look up the planned place with
`_find_specific_place` and, when it is found (id matches and cleaning has
elapsed), mutate it with `BarnPlace.add` — with no suspension point between
the lookup and the mutation.  `none` models the `continue` branch where the
planned place is unavailable and nothing is changed. -/
def placeAddStep : List BarnPlace → ℚ → String → String → Nat →
    Option (List BarnPlace)
  | [], _, _, _, _ => none
  | p :: rest, now, pid, sid, amt =>
      if p.place_id = pid ∧ p.cleaning_until ≤ now then
        some (p.add sid amt :: rest)
      else
        (placeAddStep rest now pid sid amt).map (fun l => p :: l)

/-- The eligibility order rebuilt by `_place_truck.recompute_order`:
empty places first, then places already holding this shipment, then places
holding only other shipments — all restricted to places out of cleaning
with free capacity. -/
def recomputeOrder (places : List BarnPlace) (now : ℚ) (sid : String) :
    List String :=
  ((places.filter fun p =>
      decide (p.cleaning_until ≤ now) && (p.occupied == 0) &&
        decide (0 < p.remaining_capacity)).map BarnPlace.place_id)
  ++ ((places.filter fun p =>
      decide (p.cleaning_until ≤ now) && (occGet p.occupants sid).isSome &&
        decide (0 < p.remaining_capacity)).map BarnPlace.place_id)
  ++ ((places.filter fun p =>
      decide (p.cleaning_until ≤ now) && (0 < p.occupied : Bool) &&
        (occGet p.occupants sid).isNone &&
        decide (0 < p.remaining_capacity)).map BarnPlace.place_id)

/-- The planning loop of `_place_truck`.  `ordered` is the unconsumed suffix
of `ordered_ids` (consuming its head is `idx += 1`).  When the candidate list
is exhausted the process sleeps half a day (`yield self.env.timeout(0.5)`)
and recomputes the order; a candidate is reserved for `min(remaining_capacity,
remaining)` after re-confirming it under the allocation lock.  The plan never
mutates any place, so the pool of places is constant during planning.  The
loop has no termination guarantee (it polls forever when capacity never
frees), hence the explicit `fuel`; `none` means the call has not completed. -/
def planLoop (places : List BarnPlace) (sid : String) :
    Nat → ℚ → List String → Nat → List (String × Nat) →
    Option (List (String × Nat) × ℚ)
  | 0, _, _, _, _ => none
  | _ + 1, now, _, 0, plan => some (plan, now)
  | fuel + 1, now, [], remaining, plan =>
      planLoop places sid fuel (now + 1/2)
        (recomputeOrder places (now + 1/2) sid) remaining plan
  | fuel + 1, now, pid :: rest, remaining, plan =>
      match findSpecificPlace places now pid with
      | none => planLoop places sid fuel now rest remaining plan
      | some p =>
          if p.remaining_capacity = 0 then
            planLoop places sid fuel now rest remaining plan
          else
            let portion := min p.remaining_capacity remaining
            if portion = 0 then planLoop places sid fuel now rest remaining plan
            else planLoop places sid fuel now rest (remaining - portion)
              (plan ++ [(pid, portion)])

/-- The apply phase of `_place_truck`: walk the plan, and for each entry
re-confirm the place and add the planned amount (`placeAddStep`); an entry
whose place is unavailable is skipped (`continue`).  Returns the updated
topology and the total quantity actually added. -/
def applyPlan (now : ℚ) (sid : String) :
    List BarnPlace → List (String × Nat) → List BarnPlace × Nat
  | places, [] => (places, 0)
  | places, (pid, amt) :: rest =>
      match placeAddStep places now pid sid amt with
      | none => applyPlan now sid places rest
      | some places' =>
          let r := applyPlan now sid places' rest
          (r.1, amt + r.2)

/-- Result of one completed `_place_truck` call. -/
structure PlaceOutcome where
  places : List BarnPlace
  plan : List (String × Nat)
  added : Nat
  /-- Grow-out sub-processes started by the call, as (shipment, amount,
  place id) triples.  The source's apply loop only mutates the place and
  writes log records: it contains no `env.process` call, so no
  `_manage_farm_cycle` process is ever spawned. -/
  spawned : List (String × Nat × String)
  nowEnd : ℚ
  deriving Repr, DecidableEq

/-- `ChickSimulation._place_truck` for a single truck running without
concurrent interference: plan the whole load, then apply the plan.  Only the
planning loop can suspend (polling for capacity), so with no other process
mutating the barn topology the call is the deterministic function below. -/
def placeTruck (places : List BarnPlace) (now : ℚ) (sid : String)
    (load : Nat) (fuel : Nat) : Option PlaceOutcome :=
  match planLoop places sid fuel now (recomputeOrder places now sid) load [] with
  | none => none
  | some (plan, now') =>
      let r := applyPlan now' sid places plan
      some ⟨r.1, plan, r.2, [], now'⟩

/-- Python 3 `round` (banker's rounding, half to even) on a rational. -/
def pyRound (q : ℚ) : ℤ :=
  let f := ⌊q⌋
  if q - f < 1/2 then f
  else if 1/2 < q - f then f + 1
  else if Even f then f else f + 1

/-- Embedding of the `CartResult` dataclass. -/
structure CartResult where
  cart_id : String
  shipment_id : String
  eggs : ℤ
  discarded : ℤ
  fertile : ℤ
  hatch_losses : ℤ
  chicks : ℤ
  deriving Repr, DecidableEq

/-- The yield arithmetic of `ChickSimulation._process_cart`:
`fertile = int(round(eggs * pass_rate))`, `discarded = eggs - fertile`,
`chicks = int(round(fertile * hatch_rate))`, `hatch_losses = fertile -
chicks`, packaged as the returned `CartResult`. -/
def processCartYield (sid cid : String) (eggs : ℤ)
    (passRate hatchRate : ℚ) : CartResult :=
  let fertile : ℤ := pyRound (eggs * passRate)
  let discarded : ℤ := eggs - fertile
  let chicks : ℤ := pyRound (fertile * hatchRate)
  { cart_id := cid
    shipment_id := sid
    eggs := eggs
    discarded := discarded
    fertile := fertile
    hatch_losses := fertile - chicks
    chicks := chicks }

/-- Embedding of the `SlaughterRecord` dataclass. -/
structure SlaughterRecord where
  day : ℚ
  shipment_id : String
  quantity : ℤ
  farm : String
  deriving Repr, DecidableEq

/-- The survival arithmetic of `ChickSimulation._manage_farm_cycle`:
`survivors = int(round(amount * survival_rate))`, `losses = amount -
survivors`. -/
def growOutSplit (amount : ℤ) (survivalRate : ℚ) : ℤ × ℤ :=
  let survivors : ℤ := pyRound (amount * survivalRate)
  (survivors, amount - survivors)

/-- What one `_manage_farm_cycle` process computes once its grow-out delay
has elapsed (the function exists in the source but is never started by any
`env.process` call): the slaughter record, the decremented place, and the
cleaning window opened when the place empties. -/
structure FarmCycleOutcome where
  record : SlaughterRecord
  place : BarnPlace
  removed : Nat
  survivors : ℤ
  losses : ℤ
  deriving Repr, DecidableEq

/-- Embedding of the body of `ChickSimulation._manage_farm_cycle` for one
(place, shipment, amount) occupancy entry, with the sampled grow-out
duration and survival rate passed in explicitly. -/
def manageFarmCycle (sid : String) (amount : Nat) (place : BarnPlace)
    (startTime growOutTime survivalRate cleaningDays : ℚ) : FarmCycleOutcome :=
  let tEnd := startTime + growOutTime
  let split := growOutSplit (amount : ℤ) survivalRate
  let dec := place.decrement sid amount
  let place' :=
    if dec.1.occupied = 0 then { dec.1 with cleaning_until := tEnd + cleaningDays }
    else dec.1
  { record := ⟨tEnd, sid, split.1, place.farm_name⟩
    place := place'
    removed := dec.2
    survivors := split.1
    losses := split.2 }

/-- The visible actions of one truck in `_handle_shipment`'s dispatch loop. -/
inductive TruckAction where
  | acquireTruck : TruckAction
  | logDepart : TruckAction
  | wait : ℚ → TruckAction
  | logArrive : TruckAction
  | invokeAllocator : Nat → TruckAction
  | releaseTruck : TruckAction
  deriving Repr, DecidableEq

/-- The per-truck action sequence of `_handle_shipment` (source order):
`yield self.truck_slots.get(1)`; departure log; `yield
self.env.timeout(self.cfg.transport_time_days)`; arrival log; `yield from
self._place_truck(...)`; `self.truck_slots.put(1)`. -/
def truckTrip (transport : ℚ) (load : Nat) : List TruckAction :=
  [TruckAction.acquireTruck, TruckAction.logDepart, TruckAction.wait transport,
   TruckAction.logArrive, TruckAction.invokeAllocator load,
   TruckAction.releaseTruck]

/-- The truck dispatch loop of `_handle_shipment`: while chicks remain, load
`min(chicks_per_truck, remaining)` onto the next truck and run its trip.
Returns (truck number, load, actions) per truck; `fuel` bounds the loop
(the Python loop does not terminate when `chicks_per_truck = 0`). -/
def truckDispatchLoop (transport : ℚ) (cpt : Nat) :
    Nat → Nat → Nat → List (Nat × Nat × List TruckAction)
  | 0, _, _ => []
  | _ + 1, _, 0 => []
  | fuel + 1, counter, remaining + 1 =>
      let load := min cpt (remaining + 1)
      (counter + 1, load, truckTrip transport load) ::
        truckDispatchLoop transport cpt fuel (counter + 1) (remaining + 1 - load)

/-- `_generate_shipments`: shipments spawned on one simulated day,
`max(1, poisson_sample)`. -/
def shipmentsToday (poissonSample : Nat) : Nat :=
  max 1 poissonSample

/-- `_generate_shipments`: the intra-day spawn interval,
`1.0 / shipments_today`. -/
def spawnInterval (poissonSample : Nat) : ℚ :=
  1 / (shipmentsToday poissonSample : ℚ)

/-- The shipment ids spawned by one iteration of the daily generator loop,
given the running counter value at the start of the day. -/
def daySpawns (counterStart poissonSample : Nat) : List String :=
  (List.range (shipmentsToday poissonSample)).map
    (fun i => "shipment-" ++ toString (counterStart + i))

/-- SimPy `FilterStore.get(filter)`: take the first stored item satisfying
the predicate, returning it and the remaining store; `none` when no stored
item matches, in which case the calling process suspends until a matching
item is put back. -/
def filterStoreGet (items : List String) (f : String → Bool) :
    Option (String × List String) :=
  match items with
  | [] => none
  | x :: rest =>
      if f x then some (x, rest)
      else (filterStoreGet rest f).map (fun r => (r.1, x :: r.2))

/-- Python `s.startswith(pre)` on the slot identifiers (spelled out over
character lists so that the kernel can evaluate it). -/
def strStartsWith (s pre : String) : Bool :=
  pre.data.isPrefixOf s.data

/-- Slot acquisition in `_process_cart`: when the shipment already has a
preferred machine, `yield store.get(lambda s: s.startswith(pref))` — a
predicate-filtered acquire with no fallback branch; otherwise an unfiltered
`yield store.get()`.  A `none` result means the process blocks. -/
def acquireSlot (freeSlots : List String) (preferred : Option String) :
    Option (String × List String) :=
  match preferred with
  | some m => filterStoreGet freeSlots (fun s => strStartsWith s m)
  | none => filterStoreGet freeSlots (fun _ => true)

/-- Modelled from the spec: the acquisition policy the spec prescribes for
machine affinity — "a predicate-filtered acquire with graceful fallback to
the unfiltered pool when no matching unit is free — do not implement it as a
hard constraint".  Used only to compare against `acquireSlot`, the policy
the source actually implements. -/
def acquireSlotWithFallback (freeSlots : List String)
    (preferred : Option String) : Option (String × List String) :=
  match preferred with
  | some m =>
      match filterStoreGet freeSlots (fun s => strStartsWith s m) with
      | some r => some r
      | none => filterStoreGet freeSlots (fun _ => true)
  | none => filterStoreGet freeSlots (fun _ => true)

/-- Embedding of the `SimulationConfig` frozen dataclass (the fields the
dynamic core reads).  Python `int` fields are `ℤ`, `float` fields are `ℚ`.
The dataclass performs no validation of any kind (no `__post_init__`). -/
structure SimulationConfig where
  target_slaughter_per_day : ℤ := 300000
  overproduction_factor : ℚ := 105/100
  shipment_eggs : ℤ := 100000
  farm_car_eggs : ℤ := 3520
  pre_hatch_cart_eggs : ℤ := 7040
  pre_hatch_machines : ℤ := 56
  pre_hatch_carts_per_machine : ℤ := 18
  hatch_machines : ℤ := 56
  hatch_carts_per_machine : ℤ := 18
  pre_hatch_days : ℤ := 24
  hatch_days_range : ℤ × ℤ := (3, 5)
  sort_and_vaccinate_hours : ℚ := 6
  load_to_transport_hours : ℚ := 6
  transport_time_days : ℚ := 1
  grow_out_days_range : ℤ × ℤ := (35, 42)
  cleaning_days : ℤ := 12
  chicks_per_truck : ℤ := 57600
  active_trucks : ℤ := 120
  xray_alpha : ℚ := 85
  xray_beta : ℚ := 15
  hatch_alpha : ℚ := 95
  hatch_beta : ℚ := 5
  farm_alpha : ℚ := 92
  farm_beta : ℚ := 8
  simulation_days : ℤ := 365
  warmup_days : ℤ := 120

/-- `SimulationConfig.total_pre_hatch_slots`. -/
def SimulationConfig.total_pre_hatch_slots (cfg : SimulationConfig) : ℤ :=
  cfg.pre_hatch_machines * cfg.pre_hatch_carts_per_machine

/-- `SimulationConfig.total_hatch_slots`. -/
def SimulationConfig.total_hatch_slots (cfg : SimulationConfig) : ℤ :=
  cfg.hatch_machines * cfg.hatch_carts_per_machine

/-- The configuration built from the source's default field values. -/
def defaultConfig : SimulationConfig := {}

/-- Embedding of the `FarmSpec` frozen dataclass. -/
structure FarmSpec where
  name : String
  capacity_chicks : Nat
  barns : Nat := 5
  deriving Repr, DecidableEq

/-- The hard-coded `_FARM_SPECS` topology of `src/simulation/config.py`
(returned by `SimulationConfig.farm_specs` regardless of the other
configuration fields). -/
def farmSpecs : List FarmSpec :=
  [⟨"Kisvarsany", 142420, 5⟩, ⟨"Gavavencsello", 202910, 5⟩,
   ⟨"Foldes", 279000, 5⟩, ⟨"Kaba", 444000, 5⟩, ⟨"Nyiribrony", 82700, 5⟩,
   ⟨"Aranyosapati", 312000, 5⟩, ⟨"Blhaza_VI", 312000, 5⟩,
   ⟨"Blhaza_III", 260000, 5⟩, ⟨"Blhaza_II", 260000, 5⟩,
   ⟨"Blhaza_I", 312000, 5⟩, ⟨"Blhaza_V", 312000, 5⟩,
   ⟨"IstvanMajor_B_IV", 260000, 5⟩, ⟨"Levelek_I", 312000, 5⟩,
   ⟨"Levelek_II", 312000, 5⟩, ⟨"Nyirmada", 260000, 5⟩,
   ⟨"Hodmezovasarhely_Nanas", 207000, 5⟩, ⟨"Tiszakarad", 182000, 5⟩,
   ⟨"Sarospatak", 199000, 5⟩, ⟨"Pusztadobos", 145500, 5⟩,
   ⟨"Laskod", 312000, 5⟩, ⟨"Ibrany", 260000, 5⟩,
   ⟨"Petnehaza_I", 260000, 5⟩, ⟨"Petnehaza_II", 260000, 5⟩,
   ⟨"Fabianhaza", 260000, 5⟩, ⟨"Nyirkarasz_I", 312000, 5⟩,
   ⟨"Nyirkercs_I", 312000, 5⟩, ⟨"Cigand_I", 260000, 5⟩,
   ⟨"Nyirkercs_II", 312000, 5⟩, ⟨"Vojka_Farm_Veke", 220000, 5⟩,
   ⟨"Nyirkercs_III", 312000, 5⟩, ⟨"Eperjeske", 312000, 5⟩,
   ⟨"Nagyhalasz", 312000, 5⟩, ⟨"Nagyecsed", 286000, 5⟩,
   ⟨"Beregdaroc", 312000, 5⟩, ⟨"Cigand_II", 312000, 5⟩,
   ⟨"Kantorjanosi", 312000, 5⟩]

/-- Two-digit zero padding, Python's `{n:02d}` for the indices used here. -/
def pad2 (n : Nat) : String :=
  if n < 10 then "0" ++ toString n else toString n

/-- `ChickSimulation._initialise_barn_places`: split each farm's capacity
evenly across its barns (`base = capacity // barns`, first
`capacity % barns` barns get one extra head). -/
def initialiseBarnPlaces (specs : List FarmSpec) : List BarnPlace :=
  specs.flatMap fun spec =>
    let base := spec.capacity_chicks / spec.barns
    let extra := spec.capacity_chicks % spec.barns
    (List.range spec.barns).map fun barnIdx =>
      { farm_name := spec.name
        place_id := spec.name ++ "-barn-" ++ pad2 (barnIdx + 1)
        capacity := base + (if barnIdx < extra then 1 else 0) }

/-- Embedding of `derive_capacity` (`src/simulation/config.py`): the
steady-state sizing arithmetic run first inside `ChickSimulation.__init__`.
Every Python `/` whose divisor can be zero is modelled as an explicit
`ZeroDivisionError`, since that exception is what construction would raise;
no other check is performed. -/
def deriveCapacity (cfg : SimulationConfig) : Except String (ℚ × ℚ) :=
  let fdenom := cfg.farm_alpha + cfg.farm_beta
  let hdenom := cfg.hatch_alpha + cfg.hatch_beta
  let xdenom := cfg.xray_alpha + cfg.xray_beta
  if fdenom = 0 then .error "ZeroDivisionError: farm_alpha + farm_beta"
  else if hdenom = 0 then .error "ZeroDivisionError: hatch_alpha + hatch_beta"
  else if xdenom = 0 then .error "ZeroDivisionError: xray_alpha + xray_beta"
  else
    let farmSurvivalMean := cfg.farm_alpha / fdenom
    let hatchSuccessMean := cfg.hatch_alpha / hdenom
    let xrayPassMean := cfg.xray_alpha / xdenom
    if farmSurvivalMean = 0 then .error "ZeroDivisionError: farm_survival_mean"
    else if hatchSuccessMean = 0 then
      .error "ZeroDivisionError: hatch_success_mean"
    else if xrayPassMean = 0 then .error "ZeroDivisionError: xray_pass_mean"
    else if (cfg.pre_hatch_cart_eggs : ℚ) = 0 then
      .error "ZeroDivisionError: pre_hatch_cart_eggs"
    else if (cfg.shipment_eggs : ℚ) = 0 then
      .error "ZeroDivisionError: shipment_eggs"
    else
      let chicksToFarms := (cfg.target_slaughter_per_day : ℚ) / farmSurvivalMean
      let eggsNeeded :=
        chicksToFarms / hatchSuccessMean / xrayPassMean *
          cfg.overproduction_factor
      .ok (eggsNeeded, eggsNeeded / (cfg.shipment_eggs : ℚ))

/-- State assembled by `ChickSimulation.__init__`. -/
structure SimState where
  eggsPerDay : ℚ
  shipmentsPerDay : ℚ
  preHatchSlots : List String
  hatchSlots : List String
  truckCapacity : ℤ
  barnPlaces : List BarnPlace
  deriving Repr, DecidableEq

/-- Slot identifiers put into a machine store by
`_populate_machine_slots`. -/
def machineSlotIds (kind : String) (machines cartsPerMachine : ℤ) :
    List String :=
  (List.range machines.toNat).flatMap fun m =>
    (List.range cartsPerMachine.toNat).map fun s =>
      kind ++ "-" ++ pad2 (m + 1) ++ "-cart-" ++ pad2 (s + 1)

/-- Embedding of `ChickSimulation.__init__` (construction): run
`derive_capacity`, create the two slot stores and the truck container, and
expand the farm topology into barn places.  The *only* checks performed
anywhere during construction are the divisions above and the SimPy
constructor contract that a `Store`/`Container` capacity must be `> 0`
(SimPy raises `ValueError` otherwise); the repository itself validates
nothing. -/
def simInit (cfg : SimulationConfig) : Except String SimState :=
  match deriveCapacity cfg with
  | .error e => .error e
  | .ok plan =>
  if cfg.total_pre_hatch_slots ≤ 0 then
    .error "ValueError: capacity must be > 0"
  else if cfg.total_hatch_slots ≤ 0 then
    .error "ValueError: capacity must be > 0"
  else if cfg.active_trucks ≤ 0 then
    .error "ValueError: capacity must be > 0"
  else .ok
    { eggsPerDay := plan.1
      shipmentsPerDay := plan.2
      preHatchSlots :=
        machineSlotIds "setter" cfg.pre_hatch_machines
          cfg.pre_hatch_carts_per_machine
      hatchSlots :=
        machineSlotIds "hatcher" cfg.hatch_machines cfg.hatch_carts_per_machine
      truckCapacity := cfg.active_trucks
      barnPlaces := initialiseBarnPlaces farmSpecs }

/-- Total quantity of a placement plan. -/
def planSum (plan : List (String × Nat)) : Nat :=
  (plan.map Prod.snd).sum

/-- `processCartYield` applied to a packed
(shipment, cart, eggs, pass rate, hatch rate) parameter tuple. -/
def cartParamYield (x : String × String × ℤ × ℚ × ℚ) : CartResult :=
  processCartYield x.1 x.2.1 x.2.2.1 x.2.2.2.1 x.2.2.2.2

/-- A one-place topology used for concrete placement scenarios. -/
def demoTopology (cap : Nat) : List BarnPlace :=
  [{ farm_name := "F", place_id := "A-barn-01", capacity := cap }]

/-! ## Helper lemmas -/

theorem occGet_occSet_ne (l : List (String × Nat)) (k k' : String) (v : Nat)
    (h : k' ≠ k) : occGet (occSet l k v) k' = occGet l k' := by
  induction l with
  | nil => simp [occSet, occGet, Ne.symm h]
  | cons e rest ih =>
      obtain ⟨ek, ev⟩ := e
      by_cases hek : ek = k
      · subst hek
        simp [occSet, occGet, Ne.symm h]
      · simp [occSet, occGet, hek]
        by_cases hek' : ek = k' <;> simp [hek', ih]

theorem occGet_occRemove_ne (l : List (String × Nat)) (k k' : String)
    (h : k' ≠ k) : occGet (occRemove l k) k' = occGet l k' := by
  induction l with
  | nil => simp [occRemove]
  | cons e rest ih =>
      obtain ⟨ek, ev⟩ := e
      by_cases hek : ek = k
      · subst hek
        simp [occRemove, occGet, Ne.symm h]
      · simp [occRemove, occGet, hek]
        by_cases hek' : ek = k' <;> simp [hek', ih]

theorem occGet_le_occSum (l : List (String × Nat)) (k : String) (v : Nat)
    (h : occGet l k = some v) : v ≤ occSum l := by
  induction l with
  | nil => simp [occGet] at h
  | cons e rest ih =>
      obtain ⟨ek, ev⟩ := e
      by_cases hek : ek = k
      · subst hek
        simp [occGet] at h
        subst h
        simp [occSum]
      · simp [occGet, hek] at h
        have := ih h
        simp [occSum] at this ⊢
        omega

theorem findSpecificPlace_eq_some (places : List BarnPlace) (now : ℚ)
    (pid : String) (p : BarnPlace)
    (h : findSpecificPlace places now pid = some p) :
    p ∈ places ∧ p.place_id = pid ∧ p.cleaning_until ≤ now := by
  induction places with
  | nil => simp [findSpecificPlace] at h
  | cons q rest ih =>
      by_cases hc : q.place_id = pid ∧ q.cleaning_until ≤ now
      · simp [findSpecificPlace, hc] at h
        subst h
        exact ⟨List.mem_cons_self _ _, hc⟩
      · simp [findSpecificPlace, hc] at h
        obtain ⟨hm, h2, h3⟩ := ih h
        exact ⟨List.mem_cons_of_mem _ hm, h2, h3⟩

theorem placeAddStep_isSome (places : List BarnPlace) (now : ℚ)
    (pid sid : String) (amt : Nat) (p : BarnPlace) (hp : p ∈ places)
    (hid : p.place_id = pid) (hcl : p.cleaning_until ≤ now) :
    (placeAddStep places now pid sid amt).isSome := by
  induction places with
  | nil => simp at hp
  | cons q rest ih =>
      rcases List.mem_cons.mp hp with hq | hq
      · subst hq
        simp [placeAddStep, hid, hcl]
      · by_cases hc : q.place_id = pid ∧ q.cleaning_until ≤ now
        · simp [placeAddStep, hc]
        · simp [placeAddStep, hc]
          exact ih hq

theorem placeAddStep_skeleton (places : List BarnPlace) (now : ℚ)
    (pid sid : String) (amt : Nat) (l : List BarnPlace)
    (h : placeAddStep places now pid sid amt = some l) :
    l.map (fun p => (p.place_id, p.cleaning_until)) =
      places.map (fun p => (p.place_id, p.cleaning_until)) := by
  induction places generalizing l with
  | nil => simp [placeAddStep] at h
  | cons q rest ih =>
      by_cases hc : q.place_id = pid ∧ q.cleaning_until ≤ now
      · simp [placeAddStep, hc] at h
        subst h
        simp [BarnPlace.add]
      · simp [placeAddStep, hc] at h
        obtain ⟨l', hl', rfl⟩ := h
        simp [ih l' hl']

theorem planLoop_spec (places : List BarnPlace) (sid : String) (fuel : Nat) :
    ∀ (now : ℚ) (ordered : List String) (remaining : Nat)
      (plan plan' : List (String × Nat)) (now' : ℚ),
      planLoop places sid fuel now ordered remaining plan = some (plan', now') →
      now ≤ now' ∧ planSum plan' = planSum plan + remaining ∧
        ∀ e ∈ plan', e ∈ plan ∨
          ∃ p ∈ places, p.place_id = e.1 ∧ p.cleaning_until ≤ now' := by
  induction fuel with
  | zero => intro now ordered remaining plan plan' now' h; simp [planLoop] at h
  | succ n ih =>
      intro now ordered remaining plan plan' now' h
      match remaining, ordered with
      | 0, ordered =>
          simp [planLoop] at h
          obtain ⟨rfl, rfl⟩ := h
          exact ⟨le_refl _, by simp, fun e he => Or.inl he⟩
      | r + 1, [] =>
          simp only [planLoop] at h
          obtain ⟨h1, h2, h3⟩ := ih _ _ _ _ _ _ h
          refine ⟨le_trans (by linarith) h1, h2, h3⟩
      | r + 1, pid :: rest =>
          simp only [planLoop] at h
          cases hf : findSpecificPlace places now pid with
          | none =>
              rw [hf] at h
              exact ih _ _ _ _ _ _ h
          | some p =>
              rw [hf] at h
              by_cases hcap : p.remaining_capacity = 0
              · simp only [hcap, if_pos rfl] at h
                exact ih _ _ _ _ _ _ h
              · simp only [if_neg hcap] at h
                by_cases hport : min p.remaining_capacity (r + 1) = 0
                · simp only [hport, if_pos rfl] at h
                  exact ih _ _ _ _ _ _ h
                · simp only [if_neg hport] at h
                  obtain ⟨h1, h2, h3⟩ := ih _ _ _ _ _ _ h
                  obtain ⟨hmem, hid, hcl⟩ :=
                    findSpecificPlace_eq_some places now pid p hf
                  refine ⟨h1, ?_, ?_⟩
                  · have hle : min p.remaining_capacity (r + 1) ≤ r + 1 :=
                      min_le_right _ _
                    simp [planSum] at h2 ⊢
                    omega
                  · intro e he
                    rcases h3 e he with hin | hex
                    · rcases List.mem_append.mp hin with hin' | hin'
                      · exact Or.inl hin'
                      · right
                        have : e = (pid, min p.remaining_capacity (r + 1)) := by
                          simpa using hin'
                        subst this
                        exact ⟨p, hmem, hid, le_trans hcl h1⟩
                    · exact Or.inr hex

theorem applyPlan_added (now : ℚ) (sid : String) :
    ∀ (plan : List (String × Nat)) (places : List BarnPlace),
      (∀ e ∈ plan, ∃ p ∈ places, p.place_id = e.1 ∧ p.cleaning_until ≤ now) →
      (applyPlan now sid places plan).2 = planSum plan := by
  intro plan
  induction plan with
  | nil => intro places _; simp [applyPlan, planSum]
  | cons e rest ih =>
      intro places hav
      obtain ⟨pid, amt⟩ := e
      obtain ⟨p, hp, hid, hcl⟩ := hav (pid, amt) (List.mem_cons_self _ _)
      cases hstep : placeAddStep places now pid sid amt with
      | none =>
          have := placeAddStep_isSome places now pid sid amt p hp hid hcl
          rw [hstep] at this
          simp at this
      | some places' =>
          have hrest : ∀ e ∈ rest,
              ∃ q ∈ places', q.place_id = e.1 ∧ q.cleaning_until ≤ now := by
            intro e he
            obtain ⟨q, hq, hqid, hqcl⟩ := hav e (List.mem_cons_of_mem _ he)
            have hskel := placeAddStep_skeleton places now pid sid amt places' hstep
            have : (q.place_id, q.cleaning_until) ∈
                places'.map (fun p => (p.place_id, p.cleaning_until)) := by
              rw [hskel]
              exact List.mem_map_of_mem _ hq
            obtain ⟨q', hq', hqeq⟩ := List.mem_map.mp this
            refine ⟨q', hq', ?_, ?_⟩
            · have := congrArg Prod.fst hqeq
              simpa [hqid] using this
            · have := congrArg Prod.snd hqeq
              simp at this
              rw [this]
              exact hqcl
          simp only [applyPlan, hstep]
          rw [ih places' hrest]
          simp [planSum]

/-! ## Claim theorems -/

/-- Claim C3: every `_place_truck` call that completes places exactly its
load: the planning loop only returns once the whole load is covered
(polling and retrying when no eligible place has free capacity, never
dropping any part), and the apply phase then adds every planned portion, so
the total amount added to barn places equals `load`. -/
theorem place_truck_places_exact_load (places : List BarnPlace) (now : ℚ)
    (sid : String) (load fuel : Nat) (r : PlaceOutcome)
    (h : placeTruck places now sid load fuel = some r) :
    r.added = load := by
  unfold placeTruck at h
  cases hp : planLoop places sid fuel now (recomputeOrder places now sid)
      load [] with
  | none => rw [hp] at h; simp at h
  | some pr =>
      obtain ⟨plan, now'⟩ := pr
      rw [hp] at h
      simp only [Option.some.injEq] at h
      obtain ⟨_, h2, h3⟩ :=
        planLoop_spec places sid fuel now _ load [] plan now' hp
      have hav : ∀ e ∈ plan,
          ∃ p ∈ places, p.place_id = e.1 ∧ p.cleaning_until ≤ now' := by
        intro e he
        rcases h3 e he with hin | hex
        · simp at hin
        · exact hex
      have hadd := applyPlan_added now' sid plan places hav
      rw [← h]
      simp only []
      rw [hadd, h2]
      simp [planSum]

/-- Witness for C3: a truck of 100 chicks placed into a topology with one
barn place of capacity 200 completes and reports exactly 100 placed. -/
theorem place_truck_places_exact_load_witness :
    (placeTruck (demoTopology 200) 0 "shipment-0" 100 9).map
        PlaceOutcome.added = some 100 := by
  cases hp : placeTruck (demoTopology 200) 0 "shipment-0" 100 9 with
  | none => exact absurd hp (by decide)
  | some r =>
      simp [place_truck_places_exact_load (demoTopology 200) 0 "shipment-0"
        100 9 r hp]

/-- Claim C2 (code bug): the barn occupancy invariant
`sum(occupants.values()) ≤ capacity` is violated.  The planning phase of
`_place_truck` reserves capacity without mutating any place, so after one
polling round it counts the same free capacity again: a single truck of
load 100 arriving at a topology whose only eligible place has capacity 30
ends with that place holding 100 occupants. -/
theorem place_truck_violates_capacity_invariant :
    ((placeTruck (demoTopology 30) 0 "shipment-0" 100 9).map
        (fun r => r.places.map fun p => (occSum p.occupants, p.capacity)) =
      some [(100, 30)]) ∧ ¬ (100 ≤ 30) := by
  constructor
  · norm_num [demoTopology, placeTruck, planLoop, recomputeOrder,
      findSpecificPlace, applyPlan, placeAddStep,
      BarnPlace.remaining_capacity, BarnPlace.add, occGet, occSet, occSum]
  · decide

/-- Claim C1 (code bug): `_place_truck` completes a placement (here the
full 100-chick load) without spawning any `_manage_farm_cycle` grow-out
sub-process — the source contains no `env.process` call for it — so the
occupancy it adds is never decremented and no `SlaughterRecord` is ever
appended. -/
theorem place_truck_spawns_no_grow_out :
    (placeTruck (demoTopology 200) 0 "shipment-0" 100 9).map
        (fun r => (r.added, r.spawned)) = some (100, []) := by decide

/-- Claim C8: a barn place whose cleaning window has not elapsed
(`cleaning_until > now`) never gains a new occupant from the allocator's
apply step: the step's `_find_specific_place` guard (id match and
`now >= cleaning_until`) and the `add` mutation form one atomic step, and
any place still cleaning is returned unchanged at its position. -/
theorem cleaning_place_never_gains_occupants (places : List BarnPlace)
    (now : ℚ) (pid sid : String) (amt i : Nat) (q : BarnPlace)
    (l : List BarnPlace) (hq : places[i]? = some q)
    (hcl : now < q.cleaning_until)
    (hstep : placeAddStep places now pid sid amt = some l) :
    l[i]? = some q := by
  induction places generalizing i l with
  | nil => simp [placeAddStep] at hstep
  | cons p rest ih =>
      by_cases hc : p.place_id = pid ∧ p.cleaning_until ≤ now
      · simp [placeAddStep, hc] at hstep
        subst hstep
        cases i with
        | zero =>
            simp at hq
            subst hq
            exact absurd hc.2 (not_le.mpr hcl)
        | succ n => simpa using hq
      · simp [placeAddStep, hc] at hstep
        obtain ⟨l', hl', rfl⟩ := hstep
        cases i with
        | zero => simpa using hq
        | succ n =>
            simp at hq ⊢
            exact ih n l' hq hl'

/-- Witness for C8: with a topology holding a cleaning place (deadline 10)
and a free place, an apply step targeting the free place at time 0 leaves
the cleaning place untouched at index 0. -/
theorem cleaning_place_never_gains_occupants_witness :
    ([⟨"F", "B-barn-01", 50, [("x", 1)], 1, 10⟩,
      ⟨"F", "A-barn-01", 50, [("s", 5)], 5, 0⟩] : List BarnPlace)[0]? =
      some ⟨"F", "B-barn-01", 50, [("x", 1)], 1, 10⟩ :=
  cleaning_place_never_gains_occupants
    [⟨"F", "B-barn-01", 50, [("x", 1)], 1, 10⟩, ⟨"F", "A-barn-01", 50, [], 0, 0⟩]
    0 "A-barn-01" "s" 5 0 ⟨"F", "B-barn-01", 50, [("x", 1)], 1, 10⟩
    [⟨"F", "B-barn-01", 50, [("x", 1)], 1, 10⟩,
     ⟨"F", "A-barn-01", 50, [("s", 5)], 5, 0⟩]
    (by decide) (by decide) (by decide)

/-- Claim C9: `BarnPlace.decrement` for one shipment leaves every other
shipment's recorded quantity unchanged, removes `min(current, amount)`
(never more than requested), and — under the representation invariant that
`occupied` is the sum of the occupant quantities — reduces the occupied
total by exactly the removed amount. -/
theorem decrement_preserves_other_shipments (p : BarnPlace)
    (sid sid' : String) (amount current : Nat)
    (hsum : p.occupied = occSum p.occupants)
    (hcur : occGet p.occupants sid = some current)
    (hne : sid' ≠ sid) :
    occGet (p.decrement sid amount).1.occupants sid' =
        occGet p.occupants sid' ∧
    (p.decrement sid amount).2 = min current amount ∧
    (p.decrement sid amount).2 ≤ amount ∧
    (p.decrement sid amount).1.occupied + (p.decrement sid amount).2 =
      p.occupied := by
  have hle : current ≤ occSum p.occupants := occGet_le_occSum _ _ _ hcur
  refine ⟨?_, ?_, ?_, ?_⟩
  · by_cases hc : current ≤ min current amount
    · simp [BarnPlace.decrement, hcur, hc,
        occGet_occRemove_ne _ _ _ hne]
    · simp [BarnPlace.decrement, hcur, hc,
        occGet_occSet_ne _ _ _ _ hne]
  · by_cases hc : current ≤ min current amount <;>
      simp [BarnPlace.decrement, hcur, hc]
  · by_cases hc : current ≤ min current amount <;>
      simp [BarnPlace.decrement, hcur, hc, min_le_right]
  · have hrem : min current amount ≤ p.occupied := by
      rw [hsum]; exact le_trans (min_le_left _ _) hle
    by_cases hc : current ≤ min current amount <;>
      simp [BarnPlace.decrement, hcur, hc] <;> omega

/-- Witness for C9: a place holding shipments s1 → 10 and s2 → 5 (occupied
15), decremented by 4 for s1: s2's quantity is untouched, 4 is removed, and
occupied drops to 11. -/
theorem decrement_preserves_other_shipments_witness :
    occGet ((BarnPlace.mk "F" "K-barn-01" 20 [("s1", 10), ("s2", 5)] 15
        0).decrement "s1" 4).1.occupants "s2" =
        occGet [("s1", 10), ("s2", 5)] "s2" ∧
    ((BarnPlace.mk "F" "K-barn-01" 20 [("s1", 10), ("s2", 5)] 15
        0).decrement "s1" 4).2 = min 10 4 ∧
    ((BarnPlace.mk "F" "K-barn-01" 20 [("s1", 10), ("s2", 5)] 15
        0).decrement "s1" 4).2 ≤ 4 ∧
    ((BarnPlace.mk "F" "K-barn-01" 20 [("s1", 10), ("s2", 5)] 15
        0).decrement "s1" 4).1.occupied +
        ((BarnPlace.mk "F" "K-barn-01" 20 [("s1", 10), ("s2", 5)] 15
          0).decrement "s1" 4).2 = 15 :=
  decrement_preserves_other_shipments
    (BarnPlace.mk "F" "K-barn-01" 20 [("s1", 10), ("s2", 5)] 15 0)
    "s1" "s2" 4 10 (by decide) (by decide) (by decide)

theorem cartParamYield_conserves (x : String × String × ℤ × ℚ × ℚ) :
    (cartParamYield x).fertile + (cartParamYield x).discarded =
        (cartParamYield x).eggs ∧
    (cartParamYield x).chicks + (cartParamYield x).hatch_losses =
      (cartParamYield x).fertile := by
  simp [cartParamYield, processCartYield]

/-- Claim C4: per cart, `fertile + discarded = eggs` and
`chicks + hatch_losses = fertile` hold exactly (each split computes its
complement by subtraction, so no rounding drift survives), the grow-out
split satisfies `survivors + losses = amount`, and the shipment-level sums
of these quantities satisfy the same conservation equations. -/
theorem cart_and_grow_out_conservation
    (carts : List (String × String × ℤ × ℚ × ℚ)) (amount : ℤ) (svr : ℚ) :
    ((carts.map cartParamYield).Forall fun c =>
        c.fertile + c.discarded = c.eggs ∧
        c.chicks + c.hatch_losses = c.fertile) ∧
    ((carts.map cartParamYield).map CartResult.fertile).sum +
        ((carts.map cartParamYield).map CartResult.discarded).sum =
      ((carts.map cartParamYield).map CartResult.eggs).sum ∧
    ((carts.map cartParamYield).map CartResult.chicks).sum +
        ((carts.map cartParamYield).map CartResult.hatch_losses).sum =
      ((carts.map cartParamYield).map CartResult.fertile).sum ∧
    (growOutSplit amount svr).1 + (growOutSplit amount svr).2 = amount := by
  refine ⟨?_, ?_, ?_, ?_⟩
  · induction carts with
    | nil => simp [List.Forall]
    | cons x rest ih =>
        simp only [List.map_cons]
        rw [List.forall_cons]
        exact ⟨cartParamYield_conserves x, ih⟩
  · induction carts with
    | nil => simp
    | cons x rest ih =>
        have hx := (cartParamYield_conserves x).1
        simp only [List.map_cons, List.sum_cons]
        omega
  · induction carts with
    | nil => simp
    | cons x rest ih =>
        have hx := (cartParamYield_conserves x).2
        simp only [List.map_cons, List.sum_cons]
        omega
  · simp [growOutSplit]

/-- Claim C6 (code bug): with a preferred setter machine recorded, slot
acquisition is a hard predicate-filtered `FilterStore.get` with no fallback:
when the preferred machine (`setter-01`) has no free slot, the cart blocks
(`none`) even though another machine's slot (`setter-02-cart-01`) is free —
an unfiltered get, or the fallback acquire the spec prescribes, would
return that free slot. -/
theorem affinity_get_blocks_without_fallback :
    acquireSlot ["setter-02-cart-01"] (some "setter-01") = none ∧
    acquireSlot ["setter-02-cart-01"] none =
      some ("setter-02-cart-01", []) ∧
    acquireSlotWithFallback ["setter-02-cart-01"] (some "setter-01") =
      some ("setter-02-cart-01", []) := by decide

/-- Counterexample to Claim C7 as stated: in the per-truck action sequence
the truck-capacity release does not precede the allocator invocation — at
transport time 1 and load 100 the release is at index 5, after the
allocator call at index 4. -/
theorem truck_release_not_before_allocator :
    truckTrip 1 100 =
      [TruckAction.acquireTruck, TruckAction.logDepart, TruckAction.wait 1,
       TruckAction.logArrive, TruckAction.invokeAllocator 100,
       TruckAction.releaseTruck] ∧
    ¬ ((truckTrip 1 100).indexOf TruckAction.releaseTruck <
        (truckTrip 1 100).indexOf (TruckAction.invokeAllocator 100)) := by
  decide

/-- Claim C7 (amended): each truck acquires one unit of truck capacity,
holds it through the fixed transit and through the allocator invocation,
and releases it only after `_place_truck` returns — the lease is held while
the allocator runs; every truck produced by the dispatch loop follows this
same action sequence. -/
theorem truck_capacity_released_after_allocator (transport : ℚ)
    (load cpt fuel counter remaining : Nat) :
    (truckTrip transport load)[0]? = some TruckAction.acquireTruck ∧
    (truckTrip transport load)[2]? = some (TruckAction.wait transport) ∧
    (truckTrip transport load)[4]? =
      some (TruckAction.invokeAllocator load) ∧
    (truckTrip transport load)[5]? = some TruckAction.releaseTruck ∧
    (truckTrip transport load).length = 6 ∧
    (truckDispatchLoop transport cpt fuel counter remaining).Forall
      (fun e => e.2.2 = truckTrip transport e.2.1) := by
  refine ⟨rfl, rfl, rfl, rfl, rfl, ?_⟩
  induction fuel generalizing counter remaining with
  | zero => simp [truckDispatchLoop, List.Forall]
  | succ n ih =>
      cases remaining with
      | zero => simp [truckDispatchLoop, List.Forall]
      | succ m => simpa [truckDispatchLoop, List.Forall] using ih _ _

/-- Claim C10: one iteration of the daily shipment-generator loop spawns
`max(1, poisson_sample)` shipment processes — at least one per day even for
a zero sample — at an intra-day interval of one day divided by that count. -/
theorem daily_generator_spawn_count (counterStart sample : Nat) :
    (daySpawns counterStart sample).length = max 1 sample ∧
    shipmentsToday sample = max 1 sample ∧
    shipmentsToday 0 = 1 ∧
    spawnInterval sample = 1 / ((max 1 sample : ℕ) : ℚ) := by
  refine ⟨?_, rfl, rfl, rfl⟩
  simp [daySpawns, shipmentsToday]

/-- Counterexample to Claim C5 as stated: construction does not fail for
every invalid capacity or duration value — a configuration with a negative
(non-positive) cart size, or a negative transport duration, is accepted by
construction without any reported configuration error. -/
theorem construction_accepts_invalid_config :
    (simInit { defaultConfig with pre_hatch_cart_eggs := -1 }).isOk = true ∧
    (simInit { defaultConfig with transport_time_days := -1 }).isOk = true := by
  constructor <;>
    norm_num [simInit, deriveCapacity, defaultConfig, Except.isOk, Except.toBool,
      SimulationConfig.total_pre_hatch_slots, SimulationConfig.total_hatch_slots]

/-- Claim C5 (amended): construction performs no explicit configuration
validation; it fails exactly when the capacity derivation would divide by
zero (zero Beta-parameter sums, zero survival/hatch/pass means, zero cart
or shipment egg size) or a resource-pool capacity is non-positive (the
SimPy constructor contract) — every other configuration, however invalid
its values, is accepted before any simulated time advances. -/
theorem simInit_ok_iff (cfg : SimulationConfig) :
    (simInit cfg).isOk = true ↔
      (cfg.farm_alpha + cfg.farm_beta ≠ 0 ∧
       cfg.hatch_alpha + cfg.hatch_beta ≠ 0 ∧
       cfg.xray_alpha + cfg.xray_beta ≠ 0 ∧
       cfg.farm_alpha / (cfg.farm_alpha + cfg.farm_beta) ≠ 0 ∧
       cfg.hatch_alpha / (cfg.hatch_alpha + cfg.hatch_beta) ≠ 0 ∧
       cfg.xray_alpha / (cfg.xray_alpha + cfg.xray_beta) ≠ 0 ∧
       (cfg.pre_hatch_cart_eggs : ℚ) ≠ 0 ∧
       (cfg.shipment_eggs : ℚ) ≠ 0 ∧
       ¬ cfg.total_pre_hatch_slots ≤ 0 ∧
       ¬ cfg.total_hatch_slots ≤ 0 ∧
       ¬ cfg.active_trucks ≤ 0) := by
  simp only [simInit, deriveCapacity]
  split_ifs <;> simp_all [Except.isOk, Except.toBool]
